import Mathlib

/-!
Verification of the edsl interview-execution core against its specification.
Each Python function used by a claim is shallowly embedded as an executable
Lean definition; parts of the repository that are referenced but whose source
is not available are modelled from the specification and marked as such in
their doc comments.
-/

deriving instance DecidableEq for Except

namespace EDSL

/-- Dynamically-typed Python values as they appear in trait mappings and
question-option lists: the claims only need strings and integers. -/
inductive PyVal where
  | str (s : String)
  | int (n : Int)
  deriving DecidableEq

/-- Corresponds to Python `isinstance(x, str)`. -/
def PyVal.isStr : PyVal → Bool
  | .str _ => true
  | .int _ => false

/-! ## Multiple-choice answer validation
Embeds `AnswerValidatorMixin.validate_answer_multiple_choice`
(src/edsl/questions/AnswerValidatorMixin.py, lines 167-184) and
`QuestionMultipleChoice.validate_answer`
(src/edsl/questions/QuestionMultipleChoiceNew.py, lines 64-77). -/

/-- An answer object for a multiple-choice question: a Python dict that has an
`answer` entry holding the integer answer code and, optionally, a `comment`
entry (`none` models a dict without the "comment" key).  The claims quantify
over integer answer codes, so the `answer` value is embedded as `Int`. -/
structure MCAnswer where
  answer : Int
  comment : Option String
  deriving DecidableEq

/-- Structured form of the `QuestionAnswerValidationError` raised by the
multiple-choice validators; every constructor carries exactly the data that the
corresponding Python f-string interpolates into its message. -/
inductive MCValidationError where
  /-- "Answer code must be a non-negative integer (got {answer_code})." -/
  | codeNegative (code : Int)
  /-- "Answer code {answer_code} must be in {list(range(len(self.question_options)))}." -/
  | codeOutOfRange (code : Int) (numOptions : Nat)
  /-- "Answer {answer} does not contain 'answer' key." (QuestionMultipleChoiceNew) -/
  | missingAnswerKey (a : MCAnswer)
  /-- "Answer {answer} does not contain 'comment' key." (QuestionMultipleChoiceNew) -/
  | missingCommentKey (a : MCAnswer)
  /-- "Answer {answer} is not a valid option." (QuestionMultipleChoiceNew) -/
  | notAValidOption (a : MCAnswer)
  deriving DecidableEq

/-- The integer answer code named by a validation error, when the error's
Python message interpolates the offending code itself. -/
def MCValidationError.offendingCode : MCValidationError → Option Int
  | .codeNegative code => some code
  | .codeOutOfRange code _ => some code
  | .missingAnswerKey _ => none
  | .missingCommentKey _ => none
  | .notAValidOption _ => none

/-- Embeds `AnswerValidatorMixin.validate_answer_multiple_choice`: after
`int(answer["answer"])` succeeds (the claim restricts attention to integer
codes, for which `int` is the identity), the code must be `>= 0` and must lie
in `range(len(self.question_options))`; for a non-negative integer the second
test is exactly `code < len(options)`. -/
def validate_answer_multiple_choice (question_options : List String) (code : Int) :
    Except MCValidationError Unit :=
  if ¬ code ≥ 0 then
    .error (.codeNegative code)
  else if ¬ code < (question_options.length : Int) then
    .error (.codeOutOfRange code question_options.length)
  else
    .ok ()

/-! ## The QuestionMultipleChoice class (QuestionMultipleChoiceNew.py) -/

/-- Embeds the `question_options` property setter
(src/edsl/questions/QuestionMultipleChoiceNew.py, lines 39-48): more than 10
options, fewer than 2 options, or any non-string option raises an `Exception`
with the quoted message. -/
def check_question_options (new_question_options : List PyVal) :
    Except String (List PyVal) :=
  if new_question_options.length > 10 then
    .error "Question options are too long!"
  else if new_question_options.length < 2 then
    .error "Question options are too short!"
  else if ¬ new_question_options.all PyVal.isStr then
    .error "Question options must be strings!"
  else
    .ok new_question_options

/-- Embeds the `question_text` property setter
(src/edsl/questions/QuestionMultipleChoiceNew.py, lines 54-59): text longer
than 1000 characters raises an `Exception`. -/
def check_question_text (new_question_text : String) : Except String String :=
  if new_question_text.length > 1000 then
    .error "Question is too long!"
  else
    .ok new_question_text

/-- The `QuestionMultipleChoice` object of QuestionMultipleChoiceNew.py.
The `question_name` validity check (`is_valid_variable_name`) is orthogonal to
the claims and its implementation is not under src/, so the name is carried
unvalidated; this only enlarges the set of constructible objects. -/
structure QuestionMultipleChoice where
  question_text : String
  question_options : List PyVal
  question_name : String
  deriving DecidableEq

/-- Embeds `QuestionMultipleChoice.__init__`, which runs the `question_text`
setter and then the `question_options` setter; any setter failure aborts
construction. -/
def QuestionMultipleChoice.make (question_text : String)
    (question_options : List PyVal) (question_name : String) :
    Except String QuestionMultipleChoice := do
  let t ← check_question_text question_text
  let o ← check_question_options question_options
  .ok ⟨t, o, question_name⟩

/-- Embeds assignment to `q.question_options` on an existing question
(the same property setter as in the constructor). -/
def QuestionMultipleChoice.set_question_options (q : QuestionMultipleChoice)
    (new_question_options : List PyVal) : Except String QuestionMultipleChoice := do
  let o ← check_question_options new_question_options
  .ok ⟨q.question_text, o, q.question_name⟩

/-- Embeds assignment to `q.question_text` on an existing question. -/
def QuestionMultipleChoice.set_question_text (q : QuestionMultipleChoice)
    (new_question_text : String) : Except String QuestionMultipleChoice := do
  let t ← check_question_text new_question_text
  .ok ⟨t, q.question_options, q.question_name⟩

/-- The reachable `QuestionMultipleChoice` objects: those produced by the
constructor, possibly followed by any sequence of successful property
assignments (the only mutators the class defines). -/
inductive ReachableQuestion : QuestionMultipleChoice → Prop where
  | construct {t o n q} : QuestionMultipleChoice.make t o n = .ok q → ReachableQuestion q
  | setOptions {q o q'} : ReachableQuestion q →
      q.set_question_options o = .ok q' → ReachableQuestion q'
  | setText {q t q'} : ReachableQuestion q →
      q.set_question_text t = .ok q' → ReachableQuestion q'

/-- Embeds `QuestionMultipleChoice.validate_answer`
(src/edsl/questions/QuestionMultipleChoiceNew.py, lines 64-77): requires the
"answer" key (structurally guaranteed by `MCAnswer`), requires the "comment"
key, and requires `answer["answer"] in range(len(question_options))`. -/
def QuestionMultipleChoice.validate_answer (q : QuestionMultipleChoice)
    (answer : MCAnswer) : Except MCValidationError MCAnswer :=
  if answer.comment.isNone then
    .error (.missingCommentKey answer)
  else if ¬ (0 ≤ answer.answer ∧ answer.answer < (q.question_options.length : Int)) then
    .error (.notAValidOption answer)
  else
    .ok answer

/-! ## Numerical answer validation
Embeds `QuestionNumerical.validate_answer` (src/edsl/questions/QuestionNumerical.py,
lines 65-72) and the mixin validators it calls
(src/edsl/questions/AnswerValidatorMixin.py, lines 19-31, 45-68, 155-165).
Python numeric values (`int`/`float`) and bounds are embedded as rationals,
which carry the order structure the bound checks use. -/

/-- An answer object for a numerical question: a Python dict with an `answer`
entry; the claim restricts attention to answers whose value is numeric
(`int` or `float`), embedded as `Rat`. -/
structure NumAnswer where
  answer : Rat
  deriving DecidableEq

/-- Structured form of the `QuestionAnswerValidationError` raised by
`validate_answer_numerical`; each constructor carries the offending value and
the violated bound interpolated into the Python message. -/
inductive NumValidationError where
  /-- "Value {value} is less than {self.min_value}" -/
  | belowMin (value bound : Rat)
  /-- "Value {value} is greater than {self.max_value}" -/
  | aboveMax (value bound : Rat)
  deriving DecidableEq

/-- The `QuestionNumerical` object: name, text and the two optional bounds
(`NumericalOrNoneDescriptor` admits numbers or `None`). -/
structure QuestionNumerical where
  question_name : String
  question_text : String
  min_value : Option Rat
  max_value : Option Rat

/-- Embeds `AnswerValidatorMixin.validate_answer_template_basic` for an answer
already known to be a dict with an "answer" key (which `NumAnswer` guarantees
structurally), so the check passes. -/
def validate_answer_template_basic (answer : NumAnswer) :
    Except NumValidationError NumAnswer :=
  .ok answer

/-- Embeds `AnswerValidatorMixin.validate_answer_key_value_numeric` restricted
to the claim's numeric answer values: `type(value) == int or type(value) ==
float` holds, so the function returns `None` without raising. -/
def validate_answer_key_value_numeric (_answer : NumAnswer) :
    Except NumValidationError Unit :=
  .ok ()

/-- Embeds `AnswerValidatorMixin.validate_answer_numerical`
(src/edsl/questions/AnswerValidatorMixin.py, lines 155-165): after
`value = float(answer.get("answer"))`, raise when `min_value` is present and
`value < min_value`, then raise when `max_value` is present and
`value > max_value`, else return the value. -/
def validate_answer_numerical (q : QuestionNumerical) (answer : NumAnswer) :
    Except NumValidationError Rat :=
  match q.min_value with
  | some m =>
      if answer.answer < m then .error (.belowMin answer.answer m)
      else
        match q.max_value with
        | some mx =>
            if answer.answer > mx then .error (.aboveMax answer.answer mx)
            else .ok answer.answer
        | none => .ok answer.answer
  | none =>
      match q.max_value with
      | some mx =>
          if answer.answer > mx then .error (.aboveMax answer.answer mx)
          else .ok answer.answer
      | none => .ok answer.answer

/-- Embeds `QuestionNumerical.validate_answer`
(src/edsl/questions/QuestionNumerical.py, lines 65-72): run the three mixin
validators in order and return the answer object itself. -/
def QuestionNumerical.validate_answer (q : QuestionNumerical) (answer : NumAnswer) :
    Except NumValidationError NumAnswer := do
  let a ← validate_answer_template_basic answer
  let _ ← validate_answer_key_value_numeric a
  let _ ← validate_answer_numerical q a
  .ok a

/-! ## Agent trait merging (`Agent.__add__`)
Embeds src/edsl/agents/Agent.py, lines 152-173.  A Python dict is embedded as
an association list with the dict's insertion order; `Agent.traits` for an
agent without a `dynamic_traits_function` is the stored `_traits` dict. -/

/-- Python `d[k]` on an embedded dict (keys are unique, so first match is the
binding). -/
def dictGet {α : Type} (d : List (String × α)) (k : String) : Option α :=
  match d with
  | [] => none
  | (k1, v) :: rest => if k1 = k then some v else dictGet rest k

/-- Python `dict.update(d2)` on `d1`: values of keys already present in `d1`
are overwritten in place (order preserved), keys new to `d1` are appended in
`d2`'s order. -/
def dictUpdate {α : Type} (d1 d2 : List (String × α)) : List (String × α) :=
  (d1.map (fun kv =>
    match dictGet d2 kv.1 with
    | some v => (kv.1, v)
    | none => kv)) ++
  d2.filter (fun kv => (dictGet d1 kv.1).isNone)

/-- The keys of an embedded Python dict, in insertion order. -/
def dictKeys {α : Type} (d : List (String × α)) : List String := d.map Prod.fst

/-- An `Agent`: for the merge claims only the trait mapping matters
(`__add__` builds the merged agent from `traits` alone). -/
structure Agent where
  traits : List (String × PyVal)
  deriving DecidableEq

/-- Embeds `Agent.__add__`: `a1 + None` returns `a1`; overlapping trait keys
raise `AgentCombinationError` carrying the set of common keys; otherwise the
result is a new agent holding `deepcopy(self.traits)` updated with
`other_agent.traits`. -/
def Agent.add (a1 : Agent) (other_agent : Option Agent) : Except (List String) Agent :=
  match other_agent with
  | none => .ok a1
  | some a2 =>
      if (dictKeys a1.traits).filter (fun k => k ∈ dictKeys a2.traits) ≠ [] then
        .error ((dictKeys a1.traits).filter (fun k => k ∈ dictKeys a2.traits))
      else
        .ok ⟨dictUpdate a1.traits a2.traits⟩

/-! ## Heap model for the aliasing behaviour of `Agent.__add__`
Python trait values are heap objects referenced from dicts; `copy.deepcopy`
allocates fresh objects, whereas `dict.update` copies references.  The heap is
a list of cells indexed by allocation order. -/

/-- A reference into the heap (a Python object identity). -/
abbrev Ref := Nat

/-- The heap of mutable Python objects: cell `r` holds the current value of
the object with identity `r`; allocation appends a cell. -/
structure Heap where
  cells : List PyVal
  deriving DecidableEq

/-- Reads the object behind a reference (out-of-range reads return a dummy
value; the theorems assume references are valid). -/
def Heap.read (h : Heap) (r : Ref) : PyVal := h.cells.getD r (.int 0)

/-- Mutates the object behind a reference in place. -/
def Heap.set (h : Heap) (r : Ref) (v : PyVal) : Heap := ⟨h.cells.set r v⟩

/-- An agent whose trait dict maps keys to references to heap-allocated
values, exposing Python's aliasing. -/
structure RefAgent where
  traits : List (String × Ref)
  deriving DecidableEq

/-- The trait mapping an agent's dict observes: each key with the current
value of the object it references. -/
def observe (h : Heap) (a : RefAgent) : List (String × PyVal) :=
  a.traits.map (fun kv => (kv.1, h.read kv.2))

/-- Embeds `copy.deepcopy(self.traits)`: a new dict whose every entry
references a freshly allocated copy of the source entry's current value. -/
def deepcopyTraits (h : Heap) : List (String × Ref) → Heap × List (String × Ref)
  | [] => (h, [])
  | (k, r) :: rest =>
      let fresh := h.cells.length
      let h1 : Heap := ⟨h.cells ++ [h.read r]⟩
      let (h2, rest2) := deepcopyTraits h1 rest
      (h2, (k, fresh) :: rest2)

/-- Embeds `Agent.__add__` on the heap model (the non-`None`, reachable path):
on overlapping keys raise `AgentCombinationError`; otherwise deep-copy the left
operand's traits and `update` the copy with the right operand's entries, which
copies the right operand's references. -/
def RefAgent.add (h : Heap) (a1 a2 : RefAgent) :
    Except (List String) (Heap × RefAgent) :=
  if (dictKeys a1.traits).filter (fun k => k ∈ dictKeys a2.traits) ≠ [] then
    .error ((dictKeys a1.traits).filter (fun k => k ∈ dictKeys a2.traits))
  else
    .ok ((deepcopyTraits h a1.traits).1, ⟨dictUpdate (deepcopyTraits h a1.traits).2 a2.traits⟩)

/-! ## Response cache (`LanguageModel.async_get_raw_response`)
Embeds src/edsl/language_models/LanguageModel.py, lines 106-165.  The
persistent store behind `self.crud` (`edsl.data`'s `CRUDOperations`) is not
under src/ and is modelled from the spec. -/

/-- The four-part key under which a provider response is stored:
`str(self.model)`, `str(self.parameters)`, `system_prompt`, `prompt`, exactly
the keyword arguments of `get_LLMOutputData` / `write_LLMOutputData`.  This is
the spec's cache fingerprint. -/
structure CacheKey where
  model : String
  parameters : String
  system_prompt : String
  prompt : String
  deriving DecidableEq

/-- Modelled from the spec: the persistent cache store (the `CRUDOperations`
object of `edsl.data`, whose source is not under src/) is a durable key-value
store with point lookup and point insert (spec sections 4.3 and 6), keyed by
the four-part fingerprint.  Later writes shadow earlier ones. -/
abbrev CacheStore : Type := List (CacheKey × String)

/-- Modelled from the spec: `crud.get_LLMOutputData` returns the stored output
for the key, or nothing on a miss. -/
def get_LLMOutputData (db : CacheStore) (k : CacheKey) : Option String :=
  match db with
  | [] => none
  | (k1, v) :: rest => if k1 = k then some v else get_LLMOutputData rest k

/-- Modelled from the spec: `crud.write_LLMOutputData` stores `output` under
the key. -/
def write_LLMOutputData (db : CacheStore) (k : CacheKey) (output : String) :
    CacheStore :=
  (k, output) :: db

/-- A `LanguageModel`: identifier, call parameters, the `use_cache` flag and
the provider behind `async_execute_model_call`, modelled as a pure function
from the prompt pair to the response payload (responses are carried in their
JSON serialization, so `json.dumps`/`json.loads` round-trip is the identity). -/
structure LanguageModel where
  model : String
  parameters : String
  use_cache : Bool
  provider : String → String → String

/-- The cache key `async_get_raw_response` reads and writes for a prompt pair
on this model. -/
def LanguageModel.key (m : LanguageModel) (prompt system_prompt : String) :
    CacheKey :=
  ⟨m.model, m.parameters, system_prompt, prompt⟩

/-- A response as returned to the caller: the payload plus the
`cached_response` flag that `_update_response_with_tracking` sets (its
wall-clock `elapsed_time`/`timestamp` fields and the tracker event are real
time and are not modelled). -/
structure TrackedResponse where
  payload : String
  cached_response : Bool
  deriving DecidableEq

/-- Embeds `LanguageModel.async_get_raw_response`
(src/edsl/language_models/LanguageModel.py, lines 117-150) together with
`_save_response_to_db` (lines 154-165): returns the tracked response, the
store after the call, and the number of invocations of
`async_execute_model_call` made during the call. -/
def async_get_raw_response (m : LanguageModel) (db : CacheStore)
    (prompt : String) (system_prompt : String) :
    TrackedResponse × CacheStore × Nat :=
  if ¬ m.use_cache then
    (⟨m.provider prompt system_prompt, false⟩, db, 1)
  else
    match get_LLMOutputData db (m.key prompt system_prompt) with
    | some cached_response => (⟨cached_response, true⟩, db, 0)
    | none =>
        let response := m.provider prompt system_prompt
        (⟨response, false⟩,
         write_LLMOutputData db (m.key prompt system_prompt) response, 1)

/-! ## Parse / repair flow (`LanguageModel.async_get_response`)
Embeds src/edsl/language_models/LanguageModel.py, lines 167-179.  The
`repair` helper (`edsl.language_models.repair`) is not under src/ and is
modelled from the spec. -/

/-- A parsed JSON dictionary; its internal shape is irrelevant to the control
flow the claim is about, so it carries an opaque field list. -/
inductive Json where
  | obj (fields : List (String × String))
  deriving DecidableEq

/-- Modelled from the spec: `repair(response, error_message)` (the
`edsl.language_models.repair` module, whose source is not under src/) applies
a best-effort textual coercion to the raw output (extract the first JSON-like
object, strip formatting) and retries parsing exactly once on the repaired
text, reporting success iff that retry parses (spec section 4.2).  `loads`
abstracts `json.loads` (returning nothing where Python raises
`JSONDecodeError`) and `coerce` abstracts the textual clean-up. -/
def repair (loads : String → Option Json) (coerce : String → String)
    (response : String) : Option Json × Bool :=
  match loads (coerce response) with
  | some d => (some d, true)
  | none => (none, false)

/-- Embeds `LanguageModel.async_get_response`
(src/edsl/language_models/LanguageModel.py, lines 167-179): try
`json.loads(response)`; on `JSONDecodeError` call `repair` once and, if even
the repair failed, raise.  The second component counts the `repair`
invocations the call makes.  `response` is the provider output text after
`parse_response`. -/
def async_get_response (loads : String → Option Json) (coerce : String → String)
    (response : String) : Except String Json × Nat :=
  match loads response with
  | some dict_response => (.ok dict_response, 0)
  | none =>
      match repair loads coerce response with
      | (some dict_response, true) => (.ok dict_response, 1)
      | _ => (.error "Even the repair failed.", 1)

/-! ## Job expansion and the runner
Embeds `JobsRunnerAsyncio.populate_total_interviews` and the result-producing
skeleton of `run_async` / `run`
(src/edsl/jobs/runners/JobsRunnerAsyncio.py).  The `Jobs`, `Interview` and
`TaskHistory` classes are not under src/ and are modelled from the spec. -/

/-- A `Survey`: the ordered question sequence (shared by reference across all
of a Job's interviews). -/
structure Survey where
  questions : List String
  deriving DecidableEq

/-- An `Interview` as the runner sees it: the (agent, survey, scenario, model,
iteration) tuple plus the cache attachment `populate_total_interviews`
performs.  Agents, scenarios and models are identified by their ids. -/
structure Interview where
  agent : String
  survey : Survey
  scenario : String
  model : String
  iteration : Nat
  cache_attached : Bool
  deriving DecidableEq

/-- Modelled from the spec: `Jobs.interviews()` (edsl/jobs/Jobs.py, not under
src/) expands the Job's agents × scenarios × models into one `Interview` per
combination, each at iteration 0 and sharing the Job's single `Survey`
(spec sections 2 and 4.6). -/
def jobsInterviews (survey : Survey) (agents scenarios models : List String) :
    List Interview :=
  agents.flatMap (fun a =>
    scenarios.flatMap (fun s =>
      models.map (fun m => ⟨a, survey, s, m, 0, false⟩)))

/-- Embeds `JobsRunnerAsyncio.populate_total_interviews`
(src/edsl/jobs/runners/JobsRunnerAsyncio.py, lines 35-56): for each interview
and each `iteration in range(n)`, iterations beyond the first get a fresh
`Interview` built from the same agent, survey, scenario and model with the new
iteration index; iteration 0 reuses the existing interview; both get the
runner's cache attached. -/
def populate_total_interviews (interviews : List Interview) (n : Nat) :
    List Interview :=
  interviews.flatMap (fun interview =>
    (List.range n).map (fun iteration =>
      if 0 < iteration then
        ⟨interview.agent, interview.survey, interview.scenario,
         interview.model, iteration, true⟩
      else
        ⟨interview.agent, interview.survey, interview.scenario,
         interview.model, interview.iteration, true⟩))

/-- A `Result` as `_interview_task` assembles it from a completed interview
(src/edsl/jobs/runners/JobsRunnerAsyncio.py, lines 138-147); the answer,
prompt and raw-response payloads are irrelevant to the sizing claim and are
not carried. -/
structure Result where
  agent : String
  scenario : String
  model : String
  iteration : Nat
  survey : Survey
  deriving DecidableEq

/-- Embeds the failure-free path of `JobsRunnerAsyncio.run_async`
(src/edsl/jobs/runners/JobsRunnerAsyncio.py, lines 58-87): one task per
interview in `total_interviews`, each completed task yielding exactly one
`Result` built by `_interview_task` from that interview's fields
(`asyncio.as_completed` delivers these in completion order, a permutation of
this list; the sizing claim is invariant under permutation). -/
def run_async_results (total_interviews : List Interview) : List Result :=
  total_interviews.map (fun interview =>
    ⟨interview.agent, interview.scenario, interview.model,
     interview.iteration, interview.survey⟩)

/-! ## Runner failure handling (`JobsRunnerAsyncio.run`) -/

/-- Modelled from the spec: one interview's execution behaviour as
`Interview.async_conduct_interview` (not under src/) exposes it to the runner.
`fatal` holds the exception message of the interview's first fatal failure, if
any; per spec section 4.5, with `stop_on_exception=False` the failure is
recorded in the interview's exception log and the interview still reaches a
terminal state producing its `Result`, while with `stop_on_exception=True` the
failure propagates out of the interview task. -/
structure InterviewRun where
  fatal : Option String
  payload : Result

/-- Modelled from the spec: conducting one interview under the Job's
`stop_on_exception` flag, returning the interview's `Result` and its exception
log, or propagating the exception. -/
def conduct (stop_on_exception : Bool) (iv : InterviewRun) :
    Except String (Result × List String) :=
  match iv.fatal with
  | none => .ok (iv.payload, [])
  | some e => if stop_on_exception then .error e else .ok (iv.payload, [e])

/-- Embeds the `await`-loop of `run_async` (lines 85-87) over the interview
tasks: each completed task's result is appended; an exception raised by a task
propagates out of the async generator. -/
def run_tasks (stop_on_exception : Bool) :
    List InterviewRun → Except String (List (Result × List String))
  | [] => .ok []
  | iv :: rest =>
      match conduct stop_on_exception iv with
      | .error e => .error e
      | .ok r =>
          match run_tasks stop_on_exception rest with
          | .error e => .error e
          | .ok rs => .ok (r :: rs)

/-- Modelled from the spec: `TaskHistory(self.total_interviews)` (the
`TaskHistory` class is not under src/) aggregates, per interview index, the
exceptions that interview recorded (spec section 4.7). -/
def task_history_from (k : Nat) : List InterviewRun → List (Nat × String)
  | [] => []
  | iv :: rest =>
      (match iv.fatal with
       | some e => [(k, e)]
       | none => []) ++ task_history_from (k + 1) rest

/-- The task history of a run: every failure with the index of the interview
it belongs to and its exception. -/
def task_history (ivs : List InterviewRun) : List (Nat × String) :=
  task_history_from 0 ivs

/-- Embeds `JobsRunnerAsyncio.run`
(src/edsl/jobs/runners/JobsRunnerAsyncio.py, lines 154-232): results streamed
by `run_async` are collected into `self.results`; the surrounding
`try`/`except` catches only `asyncio.CancelledError`, so an exception
propagating from an interview task escapes `run` before
`Results(...)`/`TaskHistory(...)` are built; otherwise the completed results
are returned with `task_history` attached. -/
def run_job (stop_on_exception : Bool) (ivs : List InterviewRun) :
    Except String (List Result × List (Nat × String)) :=
  match run_tasks stop_on_exception ivs with
  | .error e => .error e
  | .ok pairs => .ok (pairs.map Prod.fst, task_history ivs)

/-! ## Theorems -/

/-! ### Helper lemmas -/

theorem check_question_options_ok {opts opts' : List PyVal}
    (h : check_question_options opts = .ok opts') :
    opts' = opts ∧ 2 ≤ opts.length ∧ opts.length ≤ 10 ∧
      opts.all PyVal.isStr = true := by
  unfold check_question_options at h
  split_ifs at h with h1 h2 h3
  · simp only [Except.ok.injEq] at h
    refine ⟨h.symm, by omega, by omega, by simpa using h3⟩

theorem check_question_text_ok {t t' : String}
    (h : check_question_text t = .ok t') :
    t' = t ∧ t.length ≤ 1000 := by
  unfold check_question_text at h
  split_ifs at h with h1
  · simp only [Except.ok.injEq] at h
    exact ⟨h.symm, by omega⟩

theorem make_ok {t : String} {o : List PyVal} {nm : String} {q : QuestionMultipleChoice}
    (h : QuestionMultipleChoice.make t o nm = .ok q) :
    q.question_text = t ∧ q.question_options = o ∧ t.length ≤ 1000 ∧
      2 ≤ o.length ∧ o.length ≤ 10 ∧ o.all PyVal.isStr = true := by
  unfold QuestionMultipleChoice.make at h
  cases ht : check_question_text t with
  | error e => rw [ht] at h; simp [Bind.bind, Except.bind] at h
  | ok t1 =>
    cases ho : check_question_options o with
    | error e => rw [ht, ho] at h; simp [Bind.bind, Except.bind] at h
    | ok o1 =>
      rw [ht, ho] at h
      simp only [Bind.bind, Except.bind, Except.ok.injEq] at h
      obtain ⟨ht1, htlen⟩ := check_question_text_ok ht
      obtain ⟨ho1, holen1, holen2, hostr⟩ := check_question_options_ok ho
      subst ht1 ho1
      rw [← h]
      exact ⟨rfl, rfl, htlen, holen1, holen2, hostr⟩

theorem set_options_ok {q : QuestionMultipleChoice} {o : List PyVal}
    {q' : QuestionMultipleChoice}
    (h : q.set_question_options o = .ok q') :
    q'.question_text = q.question_text ∧ q'.question_options = o ∧
      2 ≤ o.length ∧ o.length ≤ 10 ∧ o.all PyVal.isStr = true := by
  unfold QuestionMultipleChoice.set_question_options at h
  cases ho : check_question_options o with
  | error e => rw [ho] at h; simp [Bind.bind, Except.bind] at h
  | ok o1 =>
    rw [ho] at h
    simp only [Bind.bind, Except.bind, Except.ok.injEq] at h
    obtain ⟨ho1, holen1, holen2, hostr⟩ := check_question_options_ok ho
    subst ho1
    rw [← h]
    exact ⟨rfl, rfl, holen1, holen2, hostr⟩

theorem set_text_ok {q : QuestionMultipleChoice} {t : String}
    {q' : QuestionMultipleChoice}
    (h : q.set_question_text t = .ok q') :
    q'.question_text = t ∧ q'.question_options = q.question_options ∧
      t.length ≤ 1000 := by
  unfold QuestionMultipleChoice.set_question_text at h
  cases ht : check_question_text t with
  | error e => rw [ht] at h; simp [Bind.bind, Except.bind] at h
  | ok t1 =>
    rw [ht] at h
    simp only [Bind.bind, Except.bind, Except.ok.injEq] at h
    obtain ⟨ht1, htlen⟩ := check_question_text_ok ht
    subst ht1
    rw [← h]
    exact ⟨rfl, rfl, htlen⟩

/-! ### Claim theorems -/

/-- C10: every reachable `QuestionMultipleChoice` object has between 2 and 10
options inclusive, all strings, and question text of at most 1000 characters;
and any option list shorter than 2, longer than 10, or containing a non-string
makes the `question_options` setter raise, in the constructor as well as on
assignment. -/
theorem mc_question_options_invariant :
    (∀ q, ReachableQuestion q →
      2 ≤ q.question_options.length ∧ q.question_options.length ≤ 10 ∧
      q.question_options.all PyVal.isStr = true ∧ q.question_text.length ≤ 1000) ∧
    (∀ opts, (opts.length < 2 ∨ 10 < opts.length ∨ ¬ opts.all PyVal.isStr) →
      ∃ msg, check_question_options opts = .error msg) := by
  constructor
  · intro q hq
    induction hq with
    | construct h =>
      obtain ⟨ht, ho, htlen, h1, h2, h3⟩ := make_ok h
      rw [ht, ho]
      exact ⟨h1, h2, h3, htlen⟩
    | setOptions _ hset ih =>
      obtain ⟨ht, ho, h1, h2, h3⟩ := set_options_ok hset
      rw [ht, ho]
      exact ⟨h1, h2, h3, ih.2.2.2⟩
    | setText _ hset ih =>
      obtain ⟨ht, ho, htlen⟩ := set_text_ok hset
      rw [ht, ho]
      exact ⟨ih.1, ih.2.1, ih.2.2.1, htlen⟩
  · intro opts h
    unfold check_question_options
    split_ifs with h1 h2 h3
    · exact ⟨_, rfl⟩
    · exact ⟨_, rfl⟩
    · exfalso
      rcases h with h | h | h
      · omega
      · omega
      · exact h h3
    · exact ⟨_, rfl⟩

/-- C10 witness: a concrete constructed question satisfies the invariant, and
a concrete too-short option list is rejected. -/
theorem mc_question_options_invariant_witness :
    (2 ≤ (⟨"t", [PyVal.str "a", PyVal.str "b"], "q"⟩ :
        QuestionMultipleChoice).question_options.length ∧
      (⟨"t", [PyVal.str "a", PyVal.str "b"], "q"⟩ :
        QuestionMultipleChoice).question_options.length ≤ 10 ∧
      (⟨"t", [PyVal.str "a", PyVal.str "b"], "q"⟩ :
        QuestionMultipleChoice).question_options.all PyVal.isStr = true ∧
      (⟨"t", [PyVal.str "a", PyVal.str "b"], "q"⟩ :
        QuestionMultipleChoice).question_text.length ≤ 1000) ∧
    ∃ msg, check_question_options [PyVal.str "a"] = .error msg := by
  have hmk : QuestionMultipleChoice.make "t" [PyVal.str "a", PyVal.str "b"] "q" =
      .ok ⟨"t", [PyVal.str "a", PyVal.str "b"], "q"⟩ := by decide
  exact ⟨mc_question_options_invariant.1 _ (.construct hmk),
    mc_question_options_invariant.2 [PyVal.str "a"] (by decide)⟩

/-- C3 counterexample: on a two-option question,
`QuestionMultipleChoice.validate_answer` (QuestionMultipleChoiceNew.py) rejects
the answer object `{"answer": 0}` even though its code 0 is an integer in
`[0, 2)`, because the object lacks a "comment" key; so validation does not
succeed for every answer object whose code is in range. -/
theorem mc_validate_answer_comment_counterexample :
    QuestionMultipleChoice.validate_answer ⟨"t", [PyVal.str "a", PyVal.str "b"], "q"⟩
        ⟨0, none⟩ =
      .error (.missingCommentKey ⟨0, none⟩) ∧
    (0 : Int) ≤ 0 ∧ (0 : Int) < 2 := by
  decide

/-- C3 amended: `AnswerValidatorMixin.validate_answer_multiple_choice` accepts
an integer code exactly when it lies in `[0, len(options))` and every failure
names the offending code; `QuestionMultipleChoice.validate_answer`
(QuestionMultipleChoiceNew.py) additionally requires the answer object to carry
a "comment" key, and for answer objects that do, it accepts exactly the codes
in `[0, len(options))`. -/
theorem mc_validation_amended (question_options : List String) (code : Int)
    (q : QuestionMultipleChoice) (a : MCAnswer) :
    (validate_answer_multiple_choice question_options code = .ok () ↔
      0 ≤ code ∧ code < (question_options.length : Int)) ∧
    (∀ e, validate_answer_multiple_choice question_options code = .error e →
      e.offendingCode = some code) ∧
    (a.comment.isSome →
      (q.validate_answer a = .ok a ↔
        0 ≤ a.answer ∧ a.answer < (q.question_options.length : Int))) := by
  refine ⟨?_, ?_, ?_⟩
  · unfold validate_answer_multiple_choice
    split_ifs with h1 h2
    · exact ⟨fun _ => ⟨h1, h2⟩, fun _ => rfl⟩
    · constructor
      · intro h; cases h
      · intro h; omega
    · constructor
      · intro h; cases h
      · intro h; omega
  · intro e he
    unfold validate_answer_multiple_choice at he
    split_ifs at he with h1 h2
    · cases he; rfl
    · cases he; rfl
  · intro hc
    unfold QuestionMultipleChoice.validate_answer
    have hnone : a.comment.isNone = false := by
      rcases a with ⟨code1, comment1⟩
      cases comment1 with
      | none => cases hc
      | some c => rfl
    rw [hnone]
    simp only [Bool.false_eq_true, if_false]
    split_ifs with h2
    · exact ⟨fun _ => h2, fun _ => rfl⟩
    · constructor
      · intro h; cases h
      · intro h; exact absurd h h2

/-- C3 witness: the amended theorem at a two-option question, with code 1
accepted, code 5 rejected naming 5, and the comment-carrying answer accepted
by the QuestionMultipleChoiceNew validator. -/
theorem mc_validation_amended_witness :
    validate_answer_multiple_choice ["a", "b"] 1 = .ok () ∧
    MCValidationError.offendingCode (.codeOutOfRange 5 2) = some 5 ∧
    QuestionMultipleChoice.validate_answer ⟨"t", [PyVal.str "a", PyVal.str "b"], "q"⟩
        ⟨1, some "why"⟩ =
      .ok ⟨1, some "why"⟩ := by
  refine ⟨?_, ?_, ?_⟩
  · exact (mc_validation_amended ["a", "b"] 1 ⟨"t", [], "q"⟩ ⟨1, none⟩).1.mpr (by decide)
  · exact (mc_validation_amended ["a", "b"] 5 ⟨"t", [], "q"⟩ ⟨1, none⟩).2.1 _ (by decide)
  · exact ((mc_validation_amended ["a", "b"] 1
        ⟨"t", [PyVal.str "a", PyVal.str "b"], "q"⟩ ⟨1, some "why"⟩).2.2
      (by decide)).mpr (by decide)

/-- C7: numerical validation returns the answer object exactly when the value
respects the present bounds (an absent bound is unconstrained); a value below
`min_value` raises an error naming the value and the violated lower bound, and
a value above `max_value` (with the lower bound respected) raises an error
naming the value and the violated upper bound. -/
theorem numerical_validation_bounds (min_value max_value : Option Rat) (v : Rat) :
    (QuestionNumerical.validate_answer ⟨"nm", "t", min_value, max_value⟩ ⟨v⟩ =
        .ok ⟨v⟩ ↔
      (∀ m, min_value = some m → m ≤ v) ∧ (∀ m, max_value = some m → v ≤ m)) ∧
    (∀ m, min_value = some m → v < m →
      QuestionNumerical.validate_answer ⟨"nm", "t", min_value, max_value⟩ ⟨v⟩ =
        .error (.belowMin v m)) ∧
    (∀ m, max_value = some m → m < v → (∀ m0, min_value = some m0 → m0 ≤ v) →
      QuestionNumerical.validate_answer ⟨"nm", "t", min_value, max_value⟩ ⟨v⟩ =
        .error (.aboveMax v m)) := by
  unfold QuestionNumerical.validate_answer validate_answer_template_basic
    validate_answer_key_value_numeric validate_answer_numerical
  rcases min_value with _ | mn <;> rcases max_value with _ | mx <;>
    simp only [Bind.bind, Except.bind]
  · refine ⟨by simp, ?_, ?_⟩
    · intro m hm; cases hm
    · intro m hm; cases hm
  · split_ifs with h1
    · refine ⟨?_, ?_, ?_⟩
      · constructor
        · intro h; cases h
        · intro h; exact absurd (h.2 mx rfl) (not_le.mpr h1)
      · intro m hm; cases hm
      · intro m hm h2 h3; cases hm; rfl
    · refine ⟨?_, ?_, ?_⟩
      · constructor
        · intro h
          exact ⟨fun m hm => hm.elim,
            fun m hm => (by cases hm; exact not_lt.mp h1)⟩
        · intro h; rfl
      · intro m hm; cases hm
      · intro m hm h2 h3; cases hm; exact absurd h2 h1
  · split_ifs with h1
    · refine ⟨?_, ?_, ?_⟩
      · constructor
        · intro h; cases h
        · intro h; exact absurd (h.1 mn rfl) (not_le.mpr h1)
      · intro m hm h2; cases hm; rfl
      · intro m hm; cases hm
    · refine ⟨?_, ?_, ?_⟩
      · constructor
        · intro h
          exact ⟨fun m hm => (by cases hm; exact not_lt.mp h1),
            fun m hm => hm.elim⟩
        · intro h; rfl
      · intro m hm h2; cases hm; exact absurd h2 h1
      · intro m hm; cases hm
  · split_ifs with h1 h2
    · refine ⟨?_, ?_, ?_⟩
      · constructor
        · intro h; cases h
        · intro h; exact absurd (h.1 mn rfl) (not_le.mpr h1)
      · intro m hm h2; cases hm; rfl
      · intro m hm h2 h3; cases hm; exact absurd (h3 mn rfl) (not_le.mpr h1)
    · refine ⟨?_, ?_, ?_⟩
      · constructor
        · intro h; cases h
        · intro h; exact absurd (h.2 mx rfl) (not_le.mpr h2)
      · intro m hm h3; cases hm; exact absurd h3 h1
      · intro m hm h3 h4; cases hm; rfl
    · refine ⟨?_, ?_, ?_⟩
      · constructor
        · intro h
          exact ⟨fun m hm => (by cases hm; exact not_lt.mp h1),
            fun m hm => (by cases hm; exact not_lt.mp h2)⟩
        · intro h; rfl
      · intro m hm h3; cases hm; exact absurd h3 h1
      · intro m hm h3 h4; cases hm; exact absurd h3 h2

/-- C7 witness: bounds 0 and 100 accept 50, reject -3 naming the lower bound,
and reject 150 naming the upper bound. -/
theorem numerical_validation_bounds_witness :
    QuestionNumerical.validate_answer ⟨"nm", "t", some 0, some 100⟩ ⟨50⟩ = .ok ⟨50⟩ ∧
    QuestionNumerical.validate_answer ⟨"nm", "t", some 0, some 100⟩ ⟨-3⟩ =
      .error (.belowMin (-3) 0) ∧
    QuestionNumerical.validate_answer ⟨"nm", "t", some 0, some 100⟩ ⟨150⟩ =
      .error (.aboveMax 150 100) := by
  refine ⟨?_, ?_, ?_⟩
  · refine (numerical_validation_bounds (some 0) (some 100) 50).1.mpr ⟨?_, ?_⟩
    · intro m hm; rw [Option.some_inj] at hm; subst hm; norm_num
    · intro m hm; rw [Option.some_inj] at hm; subst hm; norm_num
  · exact (numerical_validation_bounds (some 0) (some 100) (-3)).2.1 0 rfl (by norm_num)
  · refine (numerical_validation_bounds (some 0) (some 100) 150).2.2 100 rfl (by norm_num) ?_
    intro m hm; rw [Option.some_inj] at hm; subst hm; norm_num

theorem dictGet_eq_none {α : Type} {d : List (String × α)} {k : String}
    (h : k ∉ dictKeys d) : dictGet d k = none := by
  induction d with
  | nil => rfl
  | cons kv rest ih =>
    rcases kv with ⟨k1, v1⟩
    simp only [dictKeys, List.map_cons, List.mem_cons, not_or] at h
    rw [dictGet, if_neg (fun hh => h.1 hh.symm)]
    exact ih (by simpa [dictKeys] using h.2)

theorem dictGet_append {α : Type} (d1 d2 : List (String × α)) (k : String) :
    dictGet (d1 ++ d2) k = (dictGet d1 k).or (dictGet d2 k) := by
  induction d1 with
  | nil => rfl
  | cons kv rest ih =>
    rcases kv with ⟨k1, v1⟩
    by_cases hk : k1 = k
    · simp [dictGet, hk]
    · simp [dictGet, hk, ih]

theorem dictUpdate_disjoint {α : Type} {d1 d2 : List (String × α)}
    (h : ∀ k, k ∈ dictKeys d1 → k ∉ dictKeys d2) :
    dictUpdate d1 d2 = d1 ++ d2 := by
  unfold dictUpdate
  have hmap : (d1.map (fun kv =>
      match dictGet d2 kv.1 with
      | some v => (kv.1, v)
      | none => kv)) = d1 := by
    have hcongr : ∀ kv ∈ d1, (match dictGet d2 kv.1 with
        | some v => (kv.1, v)
        | none => kv) = id kv := by
      intro kv hkv
      have : dictGet d2 kv.1 = none :=
        dictGet_eq_none (h kv.1 (List.mem_map_of_mem Prod.fst hkv))
      rw [this]
      rfl
    rw [List.map_congr_left hcongr, List.map_id]
  have hfilter : d2.filter (fun kv => (dictGet d1 kv.1).isNone) = d2 := by
    apply List.filter_eq_self.mpr
    intro kv hkv
    have hk1 : kv.1 ∉ dictKeys d1 := by
      intro hmem
      exact h kv.1 hmem (List.mem_map_of_mem Prod.fst hkv)
    rw [dictGet_eq_none hk1]
    rfl
  rw [hmap, hfilter]

theorem common_filter_eq_nil {α : Type} {d1 d2 : List (String × α)}
    (h : (dictKeys d1).filter (fun k => k ∈ dictKeys d2) = []) :
    ∀ k, k ∈ dictKeys d1 → k ∉ dictKeys d2 := by
  intro k hk1 hk2
  have : k ∈ (dictKeys d1).filter (fun k => k ∈ dictKeys d2) :=
    List.mem_filter.mpr ⟨hk1, by simpa using hk2⟩
  rw [h] at this
  cases this

/-- C8: merging agents with `+` raises `AgentCombinationError` exactly when
the trait key sets overlap; on disjoint key sets it returns the agent whose
trait dict is the left dict followed by the right dict, whose bindings are the
union of the two mappings; and `a1 + None` returns `a1`. -/
theorem agent_add_disjoint_union (a1 a2 : Agent) :
    (Agent.add a1 none = .ok a1) ∧
    ((∃ e, Agent.add a1 (some a2) = .error e) ↔
      ∃ k, k ∈ dictKeys a1.traits ∧ k ∈ dictKeys a2.traits) ∧
    ((∀ k, k ∈ dictKeys a1.traits → k ∉ dictKeys a2.traits) →
      Agent.add a1 (some a2) = .ok ⟨a1.traits ++ a2.traits⟩ ∧
      ∀ k, dictGet (a1.traits ++ a2.traits) k =
        ((dictGet a1.traits k).or (dictGet a2.traits k))) := by
  refine ⟨rfl, ?_, ?_⟩
  · simp only [Agent.add]
    split_ifs with hc
    · constructor
      · intro _
        have hne := hc
        rcases List.exists_mem_of_ne_nil _ hne with ⟨k, hk⟩
        have := List.mem_filter.mp hk
        exact ⟨k, this.1, by simpa using this.2⟩
      · intro _; exact ⟨_, rfl⟩
    · constructor
      · rintro ⟨e, he⟩; cases he
      · rintro ⟨k, hk1, hk2⟩
        exfalso
        apply hc
        intro hnil
        have : k ∈ (dictKeys a1.traits).filter (fun k => k ∈ dictKeys a2.traits) :=
          List.mem_filter.mpr ⟨hk1, by simpa using hk2⟩
        rw [hnil] at this
        cases this
  · intro hdisj
    constructor
    · simp only [Agent.add]
      split_ifs with hc
      · exfalso
        rcases List.exists_mem_of_ne_nil _ hc with ⟨k, hk⟩
        have := List.mem_filter.mp hk
        exact hdisj k this.1 (by simpa using this.2)
      · push_neg at hc
        rw [dictUpdate_disjoint hdisj]
    · intro k
      exact dictGet_append a1.traits a2.traits k

/-- C8 witness: two concrete disjoint agents merge into the union, and the
merged dict binds both keys. -/
theorem agent_add_disjoint_union_witness :
    Agent.add ⟨[("age", PyVal.int 10)]⟩ none = .ok ⟨[("age", PyVal.int 10)]⟩ ∧
    Agent.add ⟨[("age", PyVal.int 10)]⟩ (some ⟨[("height", PyVal.int 5)]⟩) =
      .ok ⟨[("age", PyVal.int 10), ("height", PyVal.int 5)]⟩ ∧
    dictGet [("age", PyVal.int 10), ("height", PyVal.int 5)] "height" =
      some (PyVal.int 5) := by
  have h := agent_add_disjoint_union ⟨[("age", PyVal.int 10)]⟩ ⟨[("height", PyVal.int 5)]⟩
  have hd := h.2.2 (by decide)
  exact ⟨h.1, hd.1, by decide⟩

theorem read_append_lt {l ext : List PyVal} {r : Nat} (h : r < l.length) :
    Heap.read ⟨l ++ ext⟩ r = Heap.read ⟨l⟩ r := by
  unfold Heap.read
  simp only [List.getD_eq_getElem?_getD]
  rw [List.getElem?_append_left h]

theorem read_at_boundary (l : List PyVal) (v : PyVal) (ext : List PyVal) :
    Heap.read ⟨l ++ v :: ext⟩ l.length = v := by
  unfold Heap.read
  simp only [List.getD_eq_getElem?_getD]
  rw [List.getElem?_append_right (le_refl _)]
  simp

theorem read_set_ne {h : Heap} {r r' : Nat} {v : PyVal} (hne : r ≠ r') :
    (h.set r v).read r' = h.read r' := by
  unfold Heap.read Heap.set
  simp only [List.getD_eq_getElem?_getD]
  rw [List.getElem?_set_ne hne]

theorem observe_extend {h : Heap} {ext : List PyVal} {a : RefAgent}
    (hv : ∀ kv ∈ a.traits, kv.2 < h.cells.length) :
    observe ⟨h.cells ++ ext⟩ a = observe h a := by
  unfold observe
  apply List.map_congr_left
  intro kv hkv
  rw [read_append_lt (hv kv hkv)]

theorem observe_set_ne {h : Heap} {r : Nat} {v : PyVal} {a : RefAgent}
    (hv : ∀ kv ∈ a.traits, kv.2 ≠ r) :
    observe (h.set r v) a = observe h a := by
  unfold observe
  apply List.map_congr_left
  intro kv hkv
  rw [read_set_ne (fun hh => hv kv hkv hh.symm)]

theorem observe_cons (h : Heap) (kv : String × Ref) (l : List (String × Ref)) :
    observe h ⟨kv :: l⟩ = (kv.1, h.read kv.2) :: observe h ⟨l⟩ := rfl

theorem deepcopyTraits_spec (d : List (String × Ref)) (h : Heap) :
    (∃ ext, (deepcopyTraits h d).1.cells = h.cells ++ ext) ∧
    dictKeys (deepcopyTraits h d).2 = dictKeys d ∧
    (∀ kv ∈ (deepcopyTraits h d).2, h.cells.length ≤ kv.2) ∧
    ((∀ kv ∈ d, kv.2 < h.cells.length) →
      observe (deepcopyTraits h d).1 ⟨(deepcopyTraits h d).2⟩ = observe h ⟨d⟩) := by
  induction d generalizing h with
  | nil =>
    refine ⟨⟨[], by simp [deepcopyTraits]⟩, rfl, by simp [deepcopyTraits], fun _ => rfl⟩
  | cons kv rest ih =>
    rcases kv with ⟨k, r⟩
    obtain ⟨⟨ext1, hext1⟩, hkeys, hfresh, hobs⟩ := ih ⟨h.cells ++ [h.read r]⟩
    refine ⟨⟨h.read r :: ext1, ?_⟩, ?_, ?_, ?_⟩
    · rw [deepcopyTraits]
      rw [hext1]
      simp
    · rw [deepcopyTraits]
      simp only [dictKeys, List.map_cons]
      rw [show (deepcopyTraits ⟨h.cells ++ [h.read r]⟩ rest).2.map Prod.fst =
        dictKeys (deepcopyTraits ⟨h.cells ++ [h.read r]⟩ rest).2 from rfl, hkeys]
      rfl
    · rw [deepcopyTraits]
      intro kv2 hkv2
      rcases List.mem_cons.mp hkv2 with h1 | h1
      · subst h1; exact le_refl _
      · have := hfresh kv2 h1
        simp at this
        omega
    · intro hv
      rw [deepcopyTraits]
      have hhd : (deepcopyTraits ⟨h.cells ++ [h.read r]⟩ rest).1 =
          ⟨h.cells ++ (h.read r :: ext1)⟩ := by
        cases hc2 : (deepcopyTraits ⟨h.cells ++ [h.read r]⟩ rest).1 with
        | mk cs =>
          rw [hc2] at hext1
          simp at hext1
          rw [hext1]
      have hhead : (deepcopyTraits ⟨h.cells ++ [h.read r]⟩ rest).1.read h.cells.length =
          h.read r := by
        rw [hhd]
        exact read_at_boundary h.cells (h.read r) ext1
      have hvrest : ∀ kv ∈ rest, kv.2 < (⟨h.cells ++ [h.read r]⟩ : Heap).cells.length := by
        intro kv2 hkv2
        have hlt := hv kv2 (List.mem_cons_of_mem _ hkv2)
        show kv2.2 < (h.cells ++ [h.read r]).length
        rw [List.length_append]
        exact lt_of_lt_of_le hlt (Nat.le_add_right _ _)
      rw [observe_cons, observe_cons, hhead, hobs hvrest]
      rw [show observe ⟨h.cells ++ [h.read r]⟩ ⟨rest⟩ = observe h ⟨rest⟩ from
        observe_extend (fun kv2 hkv2 => hv kv2 (List.mem_cons_of_mem _ hkv2))]

/-- C9 counterexample: for heap `[10, 5]`, `a1 = {"age": ref 0}` and
`a2 = {"height": ref 1}`, `a1 + a2` deep-copies only `a1`'s traits: the result
holds `a2`'s value by the shared reference 1, so mutating the result's
"height" value in place (heap cell 1) changes `a2`'s observed traits from 5 to
99 — the merged result does not hold a deep copy of `a2`'s values. -/
theorem agent_add_shared_ref_counterexample :
    RefAgent.add ⟨[PyVal.int 10, PyVal.int 5]⟩ ⟨[("age", 0)]⟩ ⟨[("height", 1)]⟩ =
      .ok (⟨[PyVal.int 10, PyVal.int 5, PyVal.int 10]⟩,
        ⟨[("age", 2), ("height", 1)]⟩) ∧
    observe ⟨[PyVal.int 10, PyVal.int 5]⟩ ⟨[("height", 1)]⟩ =
      [("height", PyVal.int 5)] ∧
    observe ((⟨[PyVal.int 10, PyVal.int 5, PyVal.int 10]⟩ : Heap).set 1 (PyVal.int 99))
        ⟨[("height", 1)]⟩ =
      [("height", PyVal.int 99)] := by
  decide

/-- C9 amended: `a1 + a2` itself never mutates either operand (their observed
trait mappings are unchanged); the result's values for `a1`'s keys are freshly
allocated (deep-copied), so mutating any cell allocated at or after the call
leaves both operands unchanged; but the result's entries for `a2`'s keys share
`a2`'s references, so in-place mutation through those references is visible in
`a2`. -/
theorem agent_add_frame_amended (h : Heap) (a1 a2 : RefAgent) (h1 : Heap)
    (res : RefAgent)
    (hv1 : ∀ kv ∈ a1.traits, kv.2 < h.cells.length)
    (hv2 : ∀ kv ∈ a2.traits, kv.2 < h.cells.length)
    (hok : RefAgent.add h a1 a2 = .ok (h1, res)) :
    observe h1 a1 = observe h a1 ∧
    observe h1 a2 = observe h a2 ∧
    (∀ kv ∈ res.traits, kv.1 ∈ dictKeys a1.traits → h.cells.length ≤ kv.2) ∧
    (∀ kv ∈ res.traits, kv.1 ∈ dictKeys a2.traits → kv ∈ a2.traits) ∧
    (∀ r v, h.cells.length ≤ r →
      observe (h1.set r v) a1 = observe h a1 ∧
      observe (h1.set r v) a2 = observe h a2) := by
  unfold RefAgent.add at hok
  split_ifs at hok with hc
  simp only [Except.ok.injEq, Prod.mk.injEq] at hok
  obtain ⟨hh1, hres⟩ := hok
  push_neg at hc
  have hdisj : ∀ k, k ∈ dictKeys a1.traits → k ∉ dictKeys a2.traits :=
    common_filter_eq_nil hc
  obtain ⟨⟨ext, hext⟩, hkeys, hfresh, hobs⟩ := deepcopyTraits_spec a1.traits h
  have hcopydisj : ∀ k, k ∈ dictKeys (deepcopyTraits h a1.traits).2 →
      k ∉ dictKeys a2.traits := by
    intro k hk
    rw [hkeys] at hk
    exact hdisj k hk
  have hresune : res.traits =
      (deepcopyTraits h a1.traits).2 ++ a2.traits := by
    rw [← hres]
    exact congrArg RefAgent.traits (congrArg RefAgent.mk (by
      exact dictUpdate_disjoint hcopydisj)).symm ▸ rfl
  have hobs1 : observe h1 a1 = observe h a1 := by
    rw [← hh1]
    have : (deepcopyTraits h a1.traits).1 = ⟨h.cells ++ ext⟩ := by
      cases hcells : (deepcopyTraits h a1.traits).1 with
      | mk cs => rw [hcells] at hext; simp at hext; rw [hext]
    rw [this]
    exact observe_extend hv1
  have hobs2 : observe h1 a2 = observe h a2 := by
    rw [← hh1]
    have : (deepcopyTraits h a1.traits).1 = ⟨h.cells ++ ext⟩ := by
      cases hcells : (deepcopyTraits h a1.traits).1 with
      | mk cs => rw [hcells] at hext; simp at hext; rw [hext]
    rw [this]
    exact observe_extend hv2
  refine ⟨hobs1, hobs2, ?_, ?_, ?_⟩
  · intro kv hkv hk1
    rw [hresune] at hkv
    rcases List.mem_append.mp hkv with hm | hm
    · exact hfresh kv hm
    · exfalso
      exact hdisj kv.1 hk1 (List.mem_map_of_mem Prod.fst hm)
  · intro kv hkv hk2
    rw [hresune] at hkv
    rcases List.mem_append.mp hkv with hm | hm
    · exfalso
      have : kv.1 ∈ dictKeys (deepcopyTraits h a1.traits).2 :=
        List.mem_map_of_mem Prod.fst hm
      exact hcopydisj kv.1 this hk2
    · exact hm
  · intro r v hr
    constructor
    · have hne1 : ∀ kv ∈ a1.traits, kv.2 ≠ r := by
        intro kv hkv
        exact Nat.ne_of_lt (lt_of_lt_of_le (hv1 kv hkv) hr)
      rw [observe_set_ne hne1]
      exact hobs1
    · have hne2 : ∀ kv ∈ a2.traits, kv.2 ≠ r := by
        intro kv hkv
        exact Nat.ne_of_lt (lt_of_lt_of_le (hv2 kv hkv) hr)
      rw [observe_set_ne hne2]
      exact hobs2

/-- C9 witness: the amended theorem applied to the concrete two-agent heap of
the counterexample scenario. -/
theorem agent_add_frame_amended_witness :
    observe ⟨[PyVal.int 10, PyVal.int 5, PyVal.int 10]⟩ ⟨[("age", 0)]⟩ =
      observe ⟨[PyVal.int 10, PyVal.int 5]⟩ ⟨[("age", 0)]⟩ ∧
    ("age", (2 : Ref)) ∈ ([("age", (2 : Ref)), ("height", (1 : Ref))]) ∧
    (2 : Nat) ≤ 2 ∧
    (("height", (1 : Ref)) ∈ ([("height", (1 : Ref))] : List (String × Ref))) := by
  have hfr := agent_add_frame_amended ⟨[PyVal.int 10, PyVal.int 5]⟩
    ⟨[("age", 0)]⟩ ⟨[("height", 1)]⟩
    ⟨[PyVal.int 10, PyVal.int 5, PyVal.int 10]⟩ ⟨[("age", 2), ("height", 1)]⟩
    (by decide) (by decide) (by decide)
  refine ⟨hfr.1, by decide, ?_, ?_⟩
  · exact hfr.2.2.1 ("age", 2) (by decide) (by decide)
  · exact hfr.2.2.2.1 ("height", 1) (by decide) (by decide)

theorem get_after_write (db : CacheStore) (k : CacheKey) (out : String) :
    get_LLMOutputData (write_LLMOutputData db k out) k = some out := by
  simp [get_LLMOutputData, write_LLMOutputData]

/-- C2: with `use_cache=True`, a stored response for the key (model,
parameters, system prompt, user prompt) is returned (flagged as cached) and
the provider is not invoked; on a miss the provider is invoked exactly once
and its response is stored under that key in the store that the call returns. -/
theorem cache_hit_and_miss (m : LanguageModel) (db : CacheStore)
    (prompt system_prompt : String) (huse : m.use_cache = true) :
    (∀ r, get_LLMOutputData db (m.key prompt system_prompt) = some r →
      async_get_raw_response m db prompt system_prompt = (⟨r, true⟩, db, 0)) ∧
    (get_LLMOutputData db (m.key prompt system_prompt) = none →
      async_get_raw_response m db prompt system_prompt =
        (⟨m.provider prompt system_prompt, false⟩,
          write_LLMOutputData db (m.key prompt system_prompt)
            (m.provider prompt system_prompt), 1) ∧
      get_LLMOutputData
          (write_LLMOutputData db (m.key prompt system_prompt)
            (m.provider prompt system_prompt))
          (m.key prompt system_prompt) =
        some (m.provider prompt system_prompt)) := by
  constructor
  · intro r hr
    unfold async_get_raw_response
    rw [huse, hr]
    simp
  · intro hmiss
    constructor
    · unfold async_get_raw_response
      rw [huse, hmiss]
      simp
    · exact get_after_write db (m.key prompt system_prompt)
        (m.provider prompt system_prompt)

/-- C2 witness: a concrete model: a stored response is returned without a
provider call; on the empty store the provider is called once and stored. -/
theorem cache_hit_and_miss_witness :
    async_get_raw_response ⟨"gpt", "prm", true, fun _ _ => "resp"⟩
        [(⟨"gpt", "prm", "sys", "usr"⟩, "stored")] "usr" "sys" =
      (⟨"stored", true⟩, [(⟨"gpt", "prm", "sys", "usr"⟩, "stored")], 0) ∧
    async_get_raw_response ⟨"gpt", "prm", true, fun _ _ => "resp"⟩ [] "usr" "sys" =
      (⟨"resp", false⟩, [(⟨"gpt", "prm", "sys", "usr"⟩, "resp")], 1) := by
  constructor
  · exact (cache_hit_and_miss ⟨"gpt", "prm", true, fun _ _ => "resp"⟩
      [(⟨"gpt", "prm", "sys", "usr"⟩, "stored")] "usr" "sys" rfl).1 "stored" (by decide)
  · exact ((cache_hit_and_miss ⟨"gpt", "prm", true, fun _ _ => "resp"⟩
      [] "usr" "sys" rfl).2 rfl).1

/-- C6: a `write` under a fingerprint followed by a `get` of the same
fingerprint returns the stored response unchanged, and the four-part
fingerprint is injective: two (provider, parameters, system prompt, user
prompt) tuples yield equal fingerprints exactly when all four components
agree, so tuples differing in any component get distinct fingerprints. -/
theorem cache_roundtrip_fingerprint (db : CacheStore) (k : CacheKey) (r : String)
    (m1 p1 s1 u1 m2 p2 s2 u2 : String) :
    get_LLMOutputData (write_LLMOutputData db k r) k = some r ∧
    ((⟨m1, p1, s1, u1⟩ : CacheKey) = ⟨m2, p2, s2, u2⟩ ↔
      m1 = m2 ∧ p1 = p2 ∧ s1 = s2 ∧ u1 = u2) := by
  refine ⟨get_after_write db k r, ?_⟩
  constructor
  · intro h
    cases h
    exact ⟨rfl, rfl, rfl, rfl⟩
  · rintro ⟨rfl, rfl, rfl, rfl⟩
    rfl

/-- C4: a parseable response is returned with no repair attempt; an
unparseable response triggers exactly one repair pass, whose single parse
retry on the coerced text either yields the parsed dictionary or, when it
fails too, the call raises ("Even the repair failed.") with no default answer
substituted. -/
theorem repair_attempted_once (loads : String → Option Json)
    (coerce : String → String) (response : String) :
    (∀ d, loads response = some d →
      async_get_response loads coerce response = (.ok d, 0)) ∧
    (loads response = none →
      (async_get_response loads coerce response).2 = 1 ∧
      (∀ d, loads (coerce response) = some d →
        async_get_response loads coerce response = (.ok d, 1)) ∧
      (loads (coerce response) = none →
        async_get_response loads coerce response =
          (.error "Even the repair failed.", 1))) := by
  constructor
  · intro d hd
    unfold async_get_response
    rw [hd]
  · intro hn
    refine ⟨?_, ?_, ?_⟩
    · unfold async_get_response repair
      rw [hn]
      cases hc : loads (coerce response) <;> simp
    · intro d hd
      unfold async_get_response repair
      rw [hn, hd]
    · intro hd
      unfold async_get_response repair
      rw [hn, hd]

/-- C4 witness: a concrete parser for which the repaired text parses (repair
rescues the call), and one for which it does not (fatal error). -/
theorem repair_attempted_once_witness :
    async_get_response (fun s => if s = "good" then some (.obj []) else none)
        (fun _ => "good") "bad" = (.ok (.obj []), 1) ∧
    async_get_response (fun s => if s = "good" then some (.obj []) else none)
        (fun _ => "worse") "bad" = (.error "Even the repair failed.", 1) := by
  constructor
  · exact ((repair_attempted_once (fun s => if s = "good" then some (.obj []) else none)
      (fun _ => "good") "bad").2 (by decide)).2.1 (.obj []) (by decide)
  · exact ((repair_attempted_once (fun s => if s = "good" then some (.obj []) else none)
      (fun _ => "worse") "bad").2 (by decide)).2.2 (by decide)

theorem length_flatMap_const {α β : Type} (l : List α) (f : α → List β) (c : Nat)
    (h : ∀ x ∈ l, (f x).length = c) : (l.flatMap f).length = l.length * c := by
  induction l with
  | nil => simp
  | cons x xs ih =>
    simp only [List.flatMap_cons, List.length_append, List.length_cons]
    rw [h x (List.mem_cons_self x xs),
      ih (fun y hy => h y (List.mem_cons_of_mem x hy))]
    ring

theorem populate_inner (a sc mo : String) (survey : Survey) (n : Nat) :
    (List.range n).map (fun iteration =>
      if 0 < iteration then
        (⟨a, survey, sc, mo, iteration, true⟩ : Interview)
      else
        ⟨a, survey, sc, mo, 0, true⟩) =
    (List.range n).map (fun iteration =>
      (⟨a, survey, sc, mo, iteration, true⟩ : Interview)) := by
  apply List.map_congr_left
  intro it _
  by_cases h : 0 < it
  · rw [if_pos h]
  · rw [if_neg h, Nat.eq_zero_of_not_pos h]

/-- C1: a Job with `a` agents, `s` scenarios, `p` providers run for `n`
iterations expands into exactly `a*s*p*n` interviews, one per
(agent, scenario, provider, iteration) combination, each built from the
combination's components at its iteration index and all sharing the Job's one
survey, and the failure-free run yields exactly one `Result` per interview,
hence `a*s*p*n` of them. -/
theorem job_expansion_counts (survey : Survey)
    (agents scenarios models : List String) (n : Nat) :
    populate_total_interviews (jobsInterviews survey agents scenarios models) n =
      agents.flatMap (fun a => scenarios.flatMap (fun s => models.flatMap (fun m =>
        (List.range n).map (fun iteration =>
          (⟨a, survey, s, m, iteration, true⟩ : Interview))))) ∧
    (populate_total_interviews (jobsInterviews survey agents scenarios models) n).length =
      agents.length * scenarios.length * models.length * n ∧
    (∀ iv ∈ populate_total_interviews (jobsInterviews survey agents scenarios models) n,
      iv.survey = survey) ∧
    (run_async_results
        (populate_total_interviews (jobsInterviews survey agents scenarios models) n)).length =
      agents.length * scenarios.length * models.length * n := by
  have hmain : populate_total_interviews (jobsInterviews survey agents scenarios models) n =
      agents.flatMap (fun a => scenarios.flatMap (fun s => models.flatMap (fun m =>
        (List.range n).map (fun iteration =>
          (⟨a, survey, s, m, iteration, true⟩ : Interview))))) := by
    unfold populate_total_interviews jobsInterviews
    simp only [List.flatMap_assoc, List.flatMap_map]
    simp only [populate_inner]
  have hinner : ∀ (a s m : String),
      ((List.range n).map (fun iteration =>
        (⟨a, survey, s, m, iteration, true⟩ : Interview))).length = n := by
    intro a s m
    rw [List.length_map, List.length_range]
  have hm : ∀ (a s : String), (models.flatMap (fun m =>
      (List.range n).map (fun iteration =>
        (⟨a, survey, s, m, iteration, true⟩ : Interview)))).length =
      models.length * n := by
    intro a s
    exact length_flatMap_const _ _ n (fun m _ => hinner a s m)
  have hs : ∀ (a : String), (scenarios.flatMap (fun s => models.flatMap (fun m =>
      (List.range n).map (fun iteration =>
        (⟨a, survey, s, m, iteration, true⟩ : Interview))))).length =
      scenarios.length * (models.length * n) := by
    intro a
    exact length_flatMap_const _ _ (models.length * n) (fun s _ => hm a s)
  have hlen : (populate_total_interviews
      (jobsInterviews survey agents scenarios models) n).length =
      agents.length * scenarios.length * models.length * n := by
    rw [hmain]
    rw [length_flatMap_const _ _ (scenarios.length * (models.length * n))
      (fun a _ => hs a)]
    ring
  refine ⟨hmain, hlen, ?_, ?_⟩
  · intro iv hiv
    rw [hmain] at hiv
    simp only [List.mem_flatMap, List.mem_map] at hiv
    obtain ⟨a, _, s, _, m, _, it, _, hiv⟩ := hiv
    rw [← hiv]
  · unfold run_async_results
    rw [List.length_map]
    exact hlen

/-- C1 witness: 2 agents, 1 scenario, 1 provider, 2 iterations give 4
interviews and 4 results; a concrete second-iteration interview is present and
shares the survey. -/
theorem job_expansion_counts_witness :
    (populate_total_interviews
        (jobsInterviews ⟨["q1"]⟩ ["a1", "a2"] ["s1"] ["m1"]) 2).length = 4 ∧
    (run_async_results (populate_total_interviews
        (jobsInterviews ⟨["q1"]⟩ ["a1", "a2"] ["s1"] ["m1"]) 2)).length = 4 ∧
    (⟨"a1", ⟨["q1"]⟩, "s1", "m1", 1, true⟩ : Interview).survey = ⟨["q1"]⟩ := by
  have h := job_expansion_counts ⟨["q1"]⟩ ["a1", "a2"] ["s1"] ["m1"] 2
  refine ⟨h.2.1, h.2.2.2, ?_⟩
  exact h.2.2.1 ⟨"a1", ⟨["q1"]⟩, "s1", "m1", 1, true⟩ (by decide)

theorem run_tasks_no_stop (ivs : List InterviewRun) :
    run_tasks false ivs = .ok (ivs.map (fun iv =>
      (iv.payload, match iv.fatal with | some e => [e] | none => []))) := by
  induction ivs with
  | nil => rfl
  | cons iv rest ih =>
    cases hf : iv.fatal with
    | none => simp [run_tasks, conduct, hf, ih]
    | some e => simp [run_tasks, conduct, hf, ih]

theorem run_tasks_stop_clean (ivs : List InterviewRun)
    (h : ∀ iv ∈ ivs, iv.fatal = none) :
    run_tasks true ivs = .ok (ivs.map (fun iv => (iv.payload, []))) := by
  induction ivs with
  | nil => rfl
  | cons iv rest ih =>
    have hf := h iv (List.mem_cons_self iv rest)
    simp [run_tasks, conduct, hf,
      ih (fun x hx => h x (List.mem_cons_of_mem iv hx))]

theorem task_history_from_no_fatal (k : Nat) (ivs : List InterviewRun)
    (h : ∀ iv ∈ ivs, iv.fatal = none) : task_history_from k ivs = [] := by
  induction ivs generalizing k with
  | nil => rfl
  | cons iv rest ih =>
    rw [task_history_from, h iv (List.mem_cons_self iv rest),
      ih (k + 1) (fun x hx => h x (List.mem_cons_of_mem iv hx))]
    rfl

theorem mem_task_history_from (k : Nat) (ivs : List InterviewRun)
    (idx : Nat) (e : String) :
    (idx, e) ∈ task_history_from k ivs ↔
      ∃ j iv, ivs[j]? = some iv ∧ iv.fatal = some e ∧ idx = k + j := by
  induction ivs generalizing k with
  | nil => simp [task_history_from]
  | cons iv rest ih =>
    rw [task_history_from]
    cases hf : iv.fatal with
    | none =>
      simp only [List.nil_append]
      rw [ih (k + 1)]
      constructor
      · rintro ⟨j, iv2, hj, hf2, hidx⟩
        refine ⟨j + 1, iv2, by simpa using hj, hf2, by omega⟩
      · rintro ⟨j, iv2, hj, hf2, hidx⟩
        cases j with
        | zero =>
          exfalso
          simp only [List.getElem?_cons_zero, Option.some.injEq] at hj
          rw [← hj, hf] at hf2
          cases hf2
        | succ j2 =>
          refine ⟨j2, iv2, by simpa using hj, hf2, by omega⟩
    | some e2 =>
      simp only [List.singleton_append, List.mem_cons]
      rw [ih (k + 1)]
      constructor
      · rintro (heq | ⟨j, iv2, hj, hf2, hidx⟩)
        · refine ⟨0, iv, by simp, ?_, ?_⟩
          · rw [hf]
            cases heq
            rfl
          · cases heq
            omega
        · refine ⟨j + 1, iv2, by simpa using hj, hf2, by omega⟩
      · rintro ⟨j, iv2, hj, hf2, hidx⟩
        cases j with
        | zero =>
          left
          simp only [List.getElem?_cons_zero, Option.some.injEq] at hj
          rw [← hj, hf] at hf2
          cases hf2
          have hik : idx = k := by omega
          rw [hik]
        | succ j2 =>
          right
          refine ⟨j2, iv2, by simpa using hj, hf2, by omega⟩

/-- C5 counterexample: with `stop_on_exception=true` and one fatally failing
interview, `run` catches only `asyncio.CancelledError`, so the interview's
exception propagates out of `run` and no Results collection (nor Task
History) is returned at all — the run does not return the completed Results. -/
theorem run_stop_on_exception_counterexample :
    run_job true [⟨some "boom", ⟨"agent", "scenario", "model", 0, ⟨["q1"]⟩⟩⟩] =
      .error "boom" := by
  rfl

/-- C5 amended: with `stop_on_exception=false` every run returns the Results
of all interviews together with a Task History that records every failure with
its interview index and exception (and for any index/exception pair the
history contains it exactly when that interview failed with that exception);
with `stop_on_exception=true` this holds only for failure-free runs, since the
first fatal failure propagates out of `run` and nothing is returned. -/
theorem run_job_results_amended (ivs : List InterviewRun) :
    (run_job false ivs = .ok (ivs.map InterviewRun.payload, task_history ivs)) ∧
    ((∀ iv ∈ ivs, iv.fatal = none) →
      run_job true ivs = .ok (ivs.map InterviewRun.payload, [])) ∧
    (∀ idx e, (idx, e) ∈ task_history ivs ↔
      ∃ iv, ivs[idx]? = some iv ∧ iv.fatal = some e) := by
  refine ⟨?_, ?_, ?_⟩
  · unfold run_job
    rw [run_tasks_no_stop]
    simp [List.map_map, Function.comp]
  · intro h
    unfold run_job
    rw [run_tasks_stop_clean ivs h]
    simp [List.map_map, Function.comp, task_history,
      task_history_from_no_fatal 0 ivs h]
  · intro idx e
    unfold task_history
    rw [mem_task_history_from 0 ivs idx e]
    constructor
    · rintro ⟨j, iv, hj, hf, hidx⟩
      have hji : j = idx := by omega
      rw [← hji]
      exact ⟨iv, hj, hf⟩
    · rintro ⟨iv, hj, hf⟩
      exact ⟨idx, iv, hj, hf, by omega⟩

/-- C5 witness: the amended theorem at a one-interview failing run
(`stop_on_exception=false`), a one-interview clean run
(`stop_on_exception=true`), and the concrete history membership. -/
theorem run_job_results_amended_witness :
    run_job false [⟨some "boom", ⟨"a", "s", "m", 0, ⟨["q"]⟩⟩⟩] =
      .ok ([⟨"a", "s", "m", 0, ⟨["q"]⟩⟩], [(0, "boom")]) ∧
    run_job true [⟨none, ⟨"a", "s", "m", 0, ⟨["q"]⟩⟩⟩] =
      .ok ([⟨"a", "s", "m", 0, ⟨["q"]⟩⟩], []) ∧
    ((0, "boom") ∈ task_history [⟨some "boom", ⟨"a", "s", "m", 0, ⟨["q"]⟩⟩⟩]) := by
  refine ⟨?_, ?_, ?_⟩
  · exact (run_job_results_amended [⟨some "boom", ⟨"a", "s", "m", 0, ⟨["q"]⟩⟩⟩]).1
  · exact (run_job_results_amended [⟨none, ⟨"a", "s", "m", 0, ⟨["q"]⟩⟩⟩]).2.1
      (by intro iv hiv; simp at hiv; rw [hiv])
  · exact ((run_job_results_amended
      [⟨some "boom", ⟨"a", "s", "m", 0, ⟨["q"]⟩⟩⟩]).2.2 0 "boom").mpr
      ⟨⟨some "boom", ⟨"a", "s", "m", 0, ⟨["q"]⟩⟩⟩, rfl, rfl⟩

end EDSL
